import Mathlib

/-!
Verification of the referral-codes generator (src/lib.rs).

The Rust library exposes `Charset`, `Pattern`, `Config`, `generate_one`
and `generate`.  We embed them shallowly:

* Rust `String` values are modelled as `List Char`; `String::len`
  (a UTF-8 byte count) is modelled by `utf8Len`.
* the thread RNG is modelled as an arbitrary stream `RandSrc : Nat → Nat`
  of raw draws; `Iterator::choose` on a non-empty pool returns the element
  at `draw % pool.length`, and on an empty pool returns `none`
  (whose `unwrap` is a panic).
* `usize` arithmetic is `Nat` with an explicit `% 2 ^ 64` where the Rust
  computation can overflow (release-profile two's-complement wrapping);
  `u32::try_from(n).unwrap()` panics when `n ≥ 2 ^ 32`.
* the unbounded `while` loop of `generate` is given explicit fuel; running
  out of fuel is the distinguished outcome `GenResult.outOfFuel`, a panic
  (a failed `unwrap`) is `GenResult.panicked`.
-/

namespace ReferralCodes

/-- The character sets of `Charset` in src/lib.rs.  A custom pool is the
character sequence of the Rust string. -/
inductive Charset where
  | Numeric
  | Alphabetic
  | Alphanumeric
  | Custom (s : List Char)
deriving DecidableEq

/-- UTF-8 byte length of a character sequence: Rust `String::len`. -/
def utf8Len (s : List Char) : Nat :=
  (s.map Char.utf8Size).sum

/-- Model of `Charset::len` from src/lib.rs: 10 / 52 / 62 for the built-in variants,
and the byte length (`String::len`) of the pool string for `Custom`. -/
def Charset.len : Charset → Nat
  | .Numeric => 10
  | .Alphabetic => 52
  | .Alphanumeric => 62
  | .Custom s => utf8Len s

/-- The ten digit characters sampled for `Charset::Numeric`. -/
def numericChars : List Char :=
  "0123456789".toList

/-- The 52 letters sampled for `Charset::Alphabetic`. -/
def alphabeticChars : List Char :=
  "abcdefghijklmnopqrstuvwxyzABCDEFGHIJKLMNOPQRSTUVWXYZ".toList

/-- The 62 characters sampled for `Charset::Alphanumeric`. -/
def alphanumericChars : List Char :=
  "abcdefghijklmnopqrstuvwxyzABCDEFGHIJKLMNOPQRSTUVWXYZ0123456789".toList

/-- The character sequence each `Charset` variant samples from in
`impl Distribution<char> for Charset`. -/
def Charset.pool : Charset → List Char
  | .Numeric => numericChars
  | .Alphabetic => alphabeticChars
  | .Alphanumeric => alphanumericChars
  | .Custom s => s

/-- One raw RNG draw: the model of what `rand` hands to `choose`. -/
abbrev RandSrc := Nat → Nat

/-- Model of `Charset::sample`: `pool.chars().choose(rng)`, modelled as indexing the
pool by `draw % pool.length`.  On an empty pool `choose` yields `None`,
whose `unwrap()` panics — modelled as `none`. -/
def Charset.sample (cs : Charset) (draw : Nat) : Option Char :=
  cs.pool.get? (draw % cs.pool.length)

/-- The patterns of `Pattern` in src/lib.rs. -/
inductive Pattern where
  | Length (n : Nat)
  | Pattern (s : List Char)
deriving DecidableEq

/-- Model of `Pattern::size` from src/lib.rs: the wildcard count — `n` for
`Length n`, the number of `#` characters for `Pattern s`. -/
def Pattern.size : ReferralCodes.Pattern → Nat
  | .Length u => u
  | .Pattern s => (s.filter (fun p => p == '#')).length

/-- Model of `Pattern::pattern` from src/lib.rs: the rendered template —
`n` copies of `#` for `Length n`, the string itself for `Pattern s`. -/
def Pattern.pattern : ReferralCodes.Pattern → List Char
  | .Length size => List.replicate size '#'
  | .Pattern s => s

/-- Model of `Config` from src/lib.rs. -/
structure Config where
  pattern : Pattern
  count : Nat
  charset : Charset
deriving DecidableEq

/-- Advance the modelled RNG stream past `k` consumed draws. -/
def shift (r : RandSrc) (k : Nat) : RandSrc :=
  fun n => r (n + k)

/-- The loop body of `generate_one`: scan the template left to right,
replace every `#` by a freshly sampled character, copy every other
character verbatim.  Returns the rendered code together with the number of
RNG draws consumed; `none` models the panic of sampling an empty pool. -/
def fillTemplate (cs : Charset) : RandSrc → List Char → Option (List Char × Nat)
  | _, [] => some ([], 0)
  | r, p :: ps =>
    if p = '#' then
      match cs.sample (r 0), fillTemplate cs (shift r 1) ps with
      | some ch, some (res, k) => some (ch :: res, k + 1)
      | _, _ => none
    else
      match fillTemplate cs r ps with
      | some (res, k) => some (p :: res, k)
      | none => none

/-- Model of `generate_one` from src/lib.rs. -/
def generateOne (cfg : Config) (r : RandSrc) : Option (List Char × Nat) :=
  fillTemplate cfg.charset r cfg.pattern.pattern

/-- The outcome of a `generate` call in the model. -/
inductive GenResult where
  | panicked
  | outOfFuel
  | nonFeasible
  | ok (codes : List (List Char))
deriving DecidableEq

/-- Model of `HashSet::insert`: a duplicate insert is a no-op.  The set is modelled
as a duplicate-free list; the claims never constrain iteration order. -/
def insertCode (codes : List (List Char)) (c : List Char) : List (List Char) :=
  if c ∈ codes then codes else c :: codes

/-- The `while codes.len() < config.count` loop of `generate`, with fuel. -/
def generateLoop (cfg : Config) : Nat → RandSrc → List (List Char) → GenResult
  | 0, _, codes =>
    if codes.length < cfg.count then GenResult.outOfFuel else GenResult.ok codes
  | fuel + 1, r, codes =>
    if codes.length < cfg.count then
      match generateOne cfg r with
      | none => GenResult.panicked
      | some (code, k) => generateLoop cfg fuel (shift r k) (insertCode codes code)
    else GenResult.ok codes

/-- The modulus of `usize` arithmetic on a 64-bit target. -/
def USIZE : Nat := 2 ^ 64

/-- Model of `u32::try_from` on a `usize`: fails exactly when the value exceeds
`u32::MAX`. -/
def u32TryFrom (n : Nat) : Option Nat :=
  if n < 2 ^ 32 then some n else none

/-- Model of `is_feasible` from src/lib.rs:
`charset.len().pow(u32::try_from(pattern.size()).unwrap()) >= count`.
`none` models the panic of the `unwrap`; `pow` wraps modulo `2 ^ 64`. -/
def isFeasible (cfg : Config) : Option Bool :=
  match u32TryFrom cfg.pattern.size with
  | none => none
  | some e => some (decide (cfg.count ≤ (cfg.charset.len ^ e) % USIZE))

/-- Model of `generate` from src/lib.rs: feasibility check, then the uniqueness
loop starting from the empty set. -/
def generate (cfg : Config) (r : RandSrc) (fuel : Nat) : GenResult :=
  match isFeasible cfg with
  | none => GenResult.panicked
  | some false => GenResult.nonFeasible
  | some true => generateLoop cfg fuel r []

/-- A character `c` generated for template position `p`: literal positions
are copied verbatim, wildcard positions hold a pool member. -/
def matchChar (cs : Charset) (p c : Char) : Prop :=
  if p = '#' then c ∈ cs.pool else c = p

/-- An all-zero RNG stream used to instantiate theorems at concrete inputs. -/
def r0 : RandSrc := fun _ => 0

/-! ### Helper lemmas -/

theorem sample_mem {cs : Charset} {draw : Nat} {ch : Char}
    (h : cs.sample draw = some ch) : ch ∈ cs.pool := by
  unfold Charset.sample at h
  exact List.get?_mem h

theorem sample_of_ne_nil {cs : Charset} (h : cs.pool ≠ []) (draw : Nat) :
    ∃ ch, cs.sample draw = some ch := by
  have hl : 0 < cs.pool.length := List.length_pos.mpr h
  have hm : draw % cs.pool.length < cs.pool.length := Nat.mod_lt _ hl
  exact ⟨_, List.get?_eq_get hm⟩

theorem insertCode_length_le (codes : List (List Char)) (c : List Char) :
    (insertCode codes c).length ≤ codes.length + 1 := by
  unfold insertCode
  split
  · exact Nat.le_succ _
  · simp

theorem insertCode_nodup {codes : List (List Char)} (c : List Char)
    (h : codes.Nodup) : (insertCode codes c).Nodup := by
  unfold insertCode
  split
  · exact h
  · exact List.nodup_cons.mpr ⟨by assumption, h⟩

theorem insertCode_mem {codes : List (List Char)} {c x : List Char}
    (h : x ∈ insertCode codes c) : x = c ∨ x ∈ codes := by
  unfold insertCode at h
  split at h
  · exact Or.inr h
  · rcases List.mem_cons.mp h with h' | h'
    · exact Or.inl h'
    · exact Or.inr h'

theorem fillTemplate_matches (cs : Charset) :
    ∀ (tmpl : List Char) (r : RandSrc) (s : List Char) (k : Nat),
      fillTemplate cs r tmpl = some (s, k) →
      List.Forall₂ (matchChar cs) tmpl s := by
  intro tmpl
  induction tmpl with
  | nil =>
    intro r s k h
    simp only [fillTemplate, Option.some.injEq, Prod.mk.injEq] at h
    rw [← h.1]
    exact List.Forall₂.nil
  | cons p ps ih =>
    intro r s k h
    by_cases hp : p = '#'
    · simp only [fillTemplate, if_pos hp] at h
      cases hs : cs.sample (r 0) with
      | none => rw [hs] at h; exact absurd h (by simp)
      | some ch =>
        rw [hs] at h
        cases hr : fillTemplate cs (shift r 1) ps with
        | none => rw [hr] at h; exact absurd h (by simp)
        | some resk =>
          obtain ⟨res, k'⟩ := resk
          rw [hr] at h
          simp only [Option.some.injEq, Prod.mk.injEq] at h
          rw [← h.1]
          refine List.Forall₂.cons ?_ (ih _ _ _ hr)
          unfold matchChar
          rw [if_pos hp]
          exact sample_mem hs
    · simp only [fillTemplate, if_neg hp] at h
      cases hr : fillTemplate cs r ps with
      | none => rw [hr] at h; exact absurd h (by simp)
      | some resk =>
        obtain ⟨res, k'⟩ := resk
        rw [hr] at h
        simp only [Option.some.injEq, Prod.mk.injEq] at h
        rw [← h.1]
        refine List.Forall₂.cons ?_ (ih _ _ _ hr)
        unfold matchChar
        rw [if_neg hp]

theorem fillTemplate_total (cs : Charset) :
    ∀ (tmpl : List Char) (r : RandSrc),
      cs.pool ≠ [] ∨ ('#' : Char) ∉ tmpl →
      ∃ s k, fillTemplate cs r tmpl = some (s, k) := by
  intro tmpl
  induction tmpl with
  | nil => intro r _; exact ⟨[], 0, rfl⟩
  | cons p ps ih =>
    intro r h
    have hps : cs.pool ≠ [] ∨ ('#' : Char) ∉ ps := by
      rcases h with h | h
      · exact Or.inl h
      · exact Or.inr fun hm => h (List.mem_cons_of_mem _ hm)
    by_cases hp : p = '#'
    · have hpool : cs.pool ≠ [] := by
        rcases h with h | h
        · exact h
        · exact absurd (hp ▸ List.mem_cons_self p ps) h
      obtain ⟨ch, hch⟩ := sample_of_ne_nil hpool (r 0)
      obtain ⟨s, k, hs⟩ := ih (shift r 1) hps
      refine ⟨ch :: s, k + 1, ?_⟩
      simp only [fillTemplate, if_pos hp, hch, hs]
    · obtain ⟨s, k, hs⟩ := ih r hps
      refine ⟨p :: s, k, ?_⟩
      simp only [fillTemplate, if_neg hp, hs]

theorem fillTemplate_const (cs : Charset) :
    ∀ (tmpl : List Char) (r : RandSrc), ('#' : Char) ∉ tmpl →
      fillTemplate cs r tmpl = some (tmpl, 0) := by
  intro tmpl
  induction tmpl with
  | nil => intro r _; rfl
  | cons p ps ih =>
    intro r h
    have hp : ¬p = '#' := fun hp => h (hp ▸ List.mem_cons_self p ps)
    have hps : ('#' : Char) ∉ ps := fun hm => h (List.mem_cons_of_mem _ hm)
    simp only [fillTemplate, if_neg hp, ih r hps]

theorem size_zero_no_hash {p : Pattern} (h : p.size = 0) :
    ('#' : Char) ∉ p.pattern := by
  cases p with
  | Length n =>
    simp only [Pattern.size] at h
    subst h
    simp [Pattern.pattern]
  | Pattern s =>
    simp only [Pattern.size, List.length_eq_zero] at h
    intro hm
    have : ('#' : Char) ∈ s.filter (fun p => p == '#') :=
      List.mem_filter.mpr ⟨hm, by simp⟩
    rw [h] at this
    exact absurd this (List.not_mem_nil _)

theorem generateLoop_ok_spec (cfg : Config) (P : List Char → Prop)
    (hgen : ∀ (r : RandSrc) (s : List Char) (k : Nat),
      generateOne cfg r = some (s, k) → P s) :
    ∀ (fuel : Nat) (r : RandSrc) (codes out : List (List Char)),
      generateLoop cfg fuel r codes = GenResult.ok out →
      codes.length ≤ cfg.count → codes.Nodup → (∀ c ∈ codes, P c) →
      out.length = cfg.count ∧ out.Nodup ∧ ∀ c ∈ out, P c := by
  intro fuel
  induction fuel with
  | zero =>
    intro r codes out h hlen hnd hP
    by_cases hc : codes.length < cfg.count
    · simp only [generateLoop, if_pos hc] at h
      exact absurd h (by simp)
    · simp only [generateLoop, if_neg hc, GenResult.ok.injEq] at h
      subst h
      exact ⟨Nat.le_antisymm hlen (Nat.le_of_not_lt hc), hnd, hP⟩
  | succ fuel ih =>
    intro r codes out h hlen hnd hP
    by_cases hc : codes.length < cfg.count
    · simp only [generateLoop, if_pos hc] at h
      cases hg : generateOne cfg r with
      | none => rw [hg] at h; exact absurd h (by simp)
      | some codek =>
        obtain ⟨code, k⟩ := codek
        rw [hg] at h
        refine ih _ _ _ h ?_ (insertCode_nodup _ hnd) ?_
        · calc (insertCode codes code).length ≤ codes.length + 1 :=
                insertCode_length_le _ _
            _ ≤ cfg.count := hc
        · intro c hch
          rcases insertCode_mem hch with h' | h'
          · exact h' ▸ hgen r code k hg
          · exact hP c h'
    · simp only [generateLoop, if_neg hc, GenResult.ok.injEq] at h
      subst h
      exact ⟨Nat.le_antisymm hlen (Nat.le_of_not_lt hc), hnd, hP⟩

theorem generateOne_const {cfg : Config} (h : ('#' : Char) ∉ cfg.pattern.pattern)
    (r : RandSrc) : generateOne cfg r = some (cfg.pattern.pattern, 0) :=
  fillTemplate_const cfg.charset cfg.pattern.pattern r h

theorem generateLoop_const {cfg : Config} (h : ('#' : Char) ∉ cfg.pattern.pattern) :
    ∀ (fuel : Nat) (r r' : RandSrc) (codes : List (List Char)),
      generateLoop cfg fuel r codes = generateLoop cfg fuel r' codes := by
  intro fuel
  induction fuel with
  | zero => intro r r' codes; rfl
  | succ fuel ih =>
    intro r r' codes
    simp only [generateLoop, generateOne_const h]
    by_cases hc : codes.length < cfg.count
    · simp only [if_pos hc]
      exact ih _ _ _
    · simp only [if_neg hc]

theorem generateLoop_no_panic {cfg : Config}
    (h : ∀ r : RandSrc, generateOne cfg r ≠ none) :
    ∀ (fuel : Nat) (r : RandSrc) (codes : List (List Char)),
      generateLoop cfg fuel r codes ≠ GenResult.panicked := by
  intro fuel
  induction fuel with
  | zero =>
    intro r codes
    simp only [generateLoop]
    split <;> simp
  | succ fuel ih =>
    intro r codes
    simp only [generateLoop]
    split
    · cases hg : generateOne cfg r with
      | none => exact absurd hg (h r)
      | some codek =>
        obtain ⟨code, k⟩ := codek
        exact ih _ _
    · simp

theorem isFeasible_of_lt (cfg : Config) (hs : cfg.pattern.size < 2 ^ 32) :
    isFeasible cfg =
      some (decide (cfg.count ≤ (cfg.charset.len ^ cfg.pattern.size) % USIZE)) := by
  unfold isFeasible u32TryFrom
  rw [if_pos hs]

theorem isFeasible_of_ge (cfg : Config) (hs : ¬cfg.pattern.size < 2 ^ 32) :
    isFeasible cfg = none := by
  unfold isFeasible u32TryFrom
  rw [if_neg hs]

theorem generate_of_none {cfg : Config} (h : isFeasible cfg = none)
    (r : RandSrc) (fuel : Nat) : generate cfg r fuel = GenResult.panicked := by
  unfold generate
  rw [h]

theorem generate_of_false {cfg : Config} (h : isFeasible cfg = some false)
    (r : RandSrc) (fuel : Nat) : generate cfg r fuel = GenResult.nonFeasible := by
  unfold generate
  rw [h]

theorem generate_of_true {cfg : Config} (h : isFeasible cfg = some true)
    (r : RandSrc) (fuel : Nat) : generate cfg r fuel = generateLoop cfg fuel r [] := by
  unfold generate
  rw [h]

theorem generate_ok_spec (cfg : Config) (P : List Char → Prop)
    (hgen : ∀ (r : RandSrc) (s : List Char) (k : Nat),
      generateOne cfg r = some (s, k) → P s)
    (r : RandSrc) (fuel : Nat) (codes : List (List Char))
    (h : generate cfg r fuel = GenResult.ok codes) :
    codes.length = cfg.count ∧ codes.Nodup ∧ ∀ c ∈ codes, P c := by
  unfold generate at h
  cases hf : isFeasible cfg with
  | none => rw [hf] at h; exact absurd h (by simp)
  | some b =>
    rw [hf] at h
    cases b with
    | false => exact absurd h (by simp)
    | true =>
      exact generateLoop_ok_spec cfg P hgen fuel r [] codes h (by simp)
        List.nodup_nil (by simp)

/-! ### The claims -/

/-- Claim C2: whenever `generate` returns `Ok`, the returned sequence has
length exactly `config.count` and its elements are pairwise distinct. -/
theorem c2_ok_count_and_distinct (cfg : Config) (r : RandSrc) (fuel : Nat)
    (codes : List (List Char)) (h : generate cfg r fuel = GenResult.ok codes) :
    codes.length = cfg.count ∧ codes.Nodup := by
  have := generate_ok_spec cfg (fun _ => True) (fun _ _ _ _ => trivial) r fuel codes h
  exact ⟨this.1, this.2.1⟩

theorem c2_witness :
    ([['A']] : List (List Char)).length = 1 ∧ ([['A']] : List (List Char)).Nodup :=
  c2_ok_count_and_distinct ⟨Pattern.Pattern ['A'], 1, Charset.Numeric⟩ r0 1 [['A']]
    (by decide)

/-- Claim C3: every string produced by `generate_one` (and hence every string
of a successful `generate` result) matches the pattern position by position:
literal template characters are carried verbatim and every wildcard position
holds a member of the charset's pool. -/
theorem c3_structural_match (cfg : Config) :
    (∀ (r : RandSrc) (s : List Char) (k : Nat),
      generateOne cfg r = some (s, k) →
      List.Forall₂ (matchChar cfg.charset) cfg.pattern.pattern s) ∧
    (∀ (r : RandSrc) (fuel : Nat) (codes : List (List Char)),
      generate cfg r fuel = GenResult.ok codes →
      ∀ s ∈ codes, List.Forall₂ (matchChar cfg.charset) cfg.pattern.pattern s) := by
  have hone : ∀ (r : RandSrc) (s : List Char) (k : Nat),
      generateOne cfg r = some (s, k) →
      List.Forall₂ (matchChar cfg.charset) cfg.pattern.pattern s :=
    fun r s k h => fillTemplate_matches cfg.charset cfg.pattern.pattern r s k h
  refine ⟨hone, fun r fuel codes h s hs => ?_⟩
  exact (generate_ok_spec cfg _ hone r fuel codes h).2.2 s hs

theorem c3_witness :
    List.Forall₂ (matchChar Charset.Numeric) ['A', '#'] ['A', '0'] :=
  (c3_structural_match ⟨Pattern.Pattern ['A', '#'], 1, Charset.Numeric⟩).1 r0
    ['A', '0'] 1 (by decide)

/-- Claim C7: with a `Pattern::Length n` pattern, every string produced by
`generate_one` and every string of a successful `generate` result has length
exactly `n`. -/
theorem c7_fixed_length (cfg : Config) (n : Nat)
    (hn : cfg.pattern = Pattern.Length n) :
    (∀ (r : RandSrc) (s : List Char) (k : Nat),
      generateOne cfg r = some (s, k) → s.length = n) ∧
    (∀ (r : RandSrc) (fuel : Nat) (codes : List (List Char)),
      generate cfg r fuel = GenResult.ok codes → ∀ s ∈ codes, s.length = n) := by
  have hone : ∀ (r : RandSrc) (s : List Char) (k : Nat),
      generateOne cfg r = some (s, k) → s.length = n := by
    intro r s k h
    have hlen := (fillTemplate_matches cfg.charset cfg.pattern.pattern r s k h).length_eq
    rw [hn] at hlen
    simpa [Pattern.pattern] using hlen.symm
  exact ⟨hone, fun r fuel codes h s hs =>
    (generate_ok_spec cfg _ hone r fuel codes h).2.2 s hs⟩

theorem c7_witness : (['0', '0'] : List Char).length = 2 :=
  (c7_fixed_length ⟨Pattern.Length 2, 1, Charset.Numeric⟩ 2 rfl).1 r0 ['0', '0'] 2
    (by decide)

/-- Claim C10: a config whose `pattern.size()` exceeds `u32::MAX` makes
`generate` panic in the feasibility computation (the `unwrap` of
`u32::try_from`) instead of returning a `Result`. -/
theorem c10_try_from_panic (cfg : Config) (r : RandSrc) (fuel : Nat)
    (h : 2 ^ 32 - 1 < cfg.pattern.size) :
    generate cfg r fuel = GenResult.panicked :=
  generate_of_none (isFeasible_of_ge cfg (by omega)) r fuel

theorem c10_witness :
    generate ⟨Pattern.Length (2 ^ 32), 1, Charset.Numeric⟩ r0 0 = GenResult.panicked :=
  c10_try_from_panic ⟨Pattern.Length (2 ^ 32), 1, Charset.Numeric⟩ r0 0 (by decide)

/-- Claim C1 (code bug): the claim says `generate` returns
`NonFeasibleConfig` if and only if `charset.len ^ pattern.size < count` in
unbounded integers.  The code computes the power in `usize`, which wraps:
for `Numeric` (len 10) with `Length 64`, `10 ^ 64 % 2 ^ 64 = 0`, so
`generate` rejects a genuinely feasible config (`10 ^ 64 ≥ 1`), contradicting
the library's own documentation of `is_feasible`/`generate`. -/
theorem c1_overflow_false_negative :
    1 ≤ Charset.len Charset.Numeric ^ Pattern.size (Pattern.Length 64) ∧
    generate ⟨Pattern.Length 64, 1, Charset.Numeric⟩ r0 1 = GenResult.nonFeasible := by
  constructor
  · decide
  · decide

/-- Claim C4 (corrected): the claim is universally quantified over configs
with true capacity below `count`, but a config with `pattern.size > u32::MAX`
and a one-character pool has capacity `1 < 2` and panics in the `unwrap`
instead of returning `NonFeasibleConfig`. -/
theorem c4_counterexample :
    Charset.len (Charset.Custom ['A']) ^ Pattern.size (Pattern.Length (2 ^ 32)) < 2 ∧
    generate ⟨Pattern.Length (2 ^ 32), 2, Charset.Custom ['A']⟩ r0 0 =
      GenResult.panicked := by
  constructor
  · have h1 : Charset.len (Charset.Custom ['A']) = 1 := by decide
    rw [h1, one_pow]
    decide
  · exact generate_of_none (isFeasible_of_ge _ (by simp [Pattern.size])) r0 0

/-- Claim C4 (amended): for every config with `pattern.size ≤ u32::MAX`
and a `usize`-representable count whose true mathematical capacity
`len ^ size` is below `count`, `generate` fails with `NonFeasibleConfig`:
on that path the capacity fits in `usize`, so the fixed-width computation
cannot wrap and never produces a false feasibility pass. -/
theorem c4_no_false_positive (cfg : Config) (r : RandSrc) (fuel : Nat)
    (hs : cfg.pattern.size < 2 ^ 32) (hcnt : cfg.count ≤ USIZE)
    (hcap : cfg.charset.len ^ cfg.pattern.size < cfg.count) :
    generate cfg r fuel = GenResult.nonFeasible := by
  have hlt : cfg.charset.len ^ cfg.pattern.size < USIZE := lt_of_lt_of_le hcap hcnt
  have hfeas : isFeasible cfg = some false := by
    rw [isFeasible_of_lt cfg hs, Nat.mod_eq_of_lt hlt]
    simp [decide_eq_false_iff_not, Nat.not_le, hcap]
  exact generate_of_false hfeas r fuel

theorem c4_witness :
    Charset.len Charset.Alphanumeric ^ Pattern.size (Pattern.Length 1) < 100 ∧
    generate ⟨Pattern.Length 1, 100, Charset.Alphanumeric⟩ r0 0 =
      GenResult.nonFeasible :=
  ⟨by decide, c4_no_false_positive ⟨Pattern.Length 1, 100, Charset.Alphanumeric⟩ r0 0
    (by decide) (by decide) (by decide)⟩

theorem utf8Len_of_all_one :
    ∀ {s : List Char}, (∀ c ∈ s, Char.utf8Size c = 1) → utf8Len s = s.length := by
  intro s
  induction s with
  | nil => intro _; rfl
  | cons c cs ih =>
    intro h
    have hc : Char.utf8Size c = 1 := h c (List.mem_cons_self c cs)
    have hcs : utf8Len cs = cs.length := ih fun x hx => h x (List.mem_cons_of_mem c hx)
    simp only [utf8Len, List.map_cons, List.sum_cons] at hcs ⊢
    rw [hc, hcs, List.length_cons]
    omega

/-- Claim C5 (corrected): `Charset::len` of a custom pool is Rust
`String::len`, a UTF-8 byte count, not a character count: the one-character
pool `"é"` has `len = 2`. -/
theorem c5_counterexample :
    Charset.len (Charset.Custom ['é']) ≠ (['é'] : List Char).length := by
  decide

/-- Claim C5 (amended): for a Custom charset, `Charset::len` is the UTF-8
byte length of the pool string (duplicates counted), which coincides with
the number of characters exactly when every pool character is ASCII
(one UTF-8 byte); the built-in variants have len 10, 52 and 62. -/
theorem c5_len_characterization :
    (∀ s : List Char,
      Charset.len (Charset.Custom s) = utf8Len s ∧
      ((∀ c ∈ s, Char.utf8Size c = 1) →
        Charset.len (Charset.Custom s) = s.length)) ∧
    Charset.len Charset.Numeric = 10 ∧
    Charset.len Charset.Alphabetic = 52 ∧
    Charset.len Charset.Alphanumeric = 62 :=
  ⟨fun _ => ⟨rfl, fun h => utf8Len_of_all_one h⟩, rfl, rfl, rfl⟩

theorem c5_witness :
    Charset.len (Charset.Custom ['A', 'b']) = (['A', 'b'] : List Char).length :=
  (c5_len_characterization.1 ['A', 'b']).2 (by decide)

/-- Claim C6 (corrected): the claim says `generate_one` never fails, even
for a Custom charset with an empty pool — but with an empty pool and a
wildcard in the pattern, `choose` yields `None` and its `unwrap` panics. -/
theorem c6_counterexample :
    generateOne ⟨Pattern.Length 1, 1, Charset.Custom []⟩ r0 = none := by
  decide

/-- Claim C6 (amended): `generate_one` performs no uniqueness or
feasibility checking and returns a rendered candidate for every config
whose charset pool is non-empty or whose template contains no wildcard;
with an empty pool and at least one wildcard it panics. -/
theorem c6_renders_candidate (cfg : Config) (r : RandSrc)
    (h : cfg.charset.pool ≠ [] ∨ ('#' : Char) ∉ cfg.pattern.pattern) :
    ∃ s k, generateOne cfg r = some (s, k) :=
  fillTemplate_total cfg.charset cfg.pattern.pattern r h

theorem c6_witness :
    ∃ s k, generateOne ⟨Pattern.Length 8, 1, Charset.Alphanumeric⟩ r0 = some (s, k) :=
  c6_renders_candidate ⟨Pattern.Length 8, 1, Charset.Alphanumeric⟩ r0
    (Or.inl (by decide))

/-- Claim C8 (corrected): the claim promises that an empty pool with
wildcards always "fails feasibility immediately" — but an empty pool with
`pattern.size > u32::MAX` panics in the `unwrap` of the feasibility
computation instead of returning `NonFeasibleConfig`. -/
theorem c8_counterexample :
    Charset.len (Charset.Custom []) = 0 ∧
    0 < Pattern.size (Pattern.Length (2 ^ 32)) ∧
    generate ⟨Pattern.Length (2 ^ 32), 1, Charset.Custom []⟩ r0 0 =
      GenResult.panicked :=
  ⟨rfl, by decide,
    generate_of_none (isFeasible_of_ge _ (by simp [Pattern.size])) r0 0⟩

/-- Claim C8 (amended): for every config whose charset has cardinality 0
and whose wildcard count is at most `u32::MAX`: with at least one wildcard,
any `count ≥ 1` fails feasibility immediately; with `count = 0` the result
is the empty sequence; and with no wildcard the outcome is independent of
the random source and never reaches the empty-pool sampling panic — so the
generation loop of `generate` never samples from the empty pool. -/
theorem c8_no_empty_pool_sampling (cfg : Config) (r r' : RandSrc) (fuel : Nat)
    (hlen : cfg.charset.len = 0) (hs : cfg.pattern.size < 2 ^ 32) :
    (0 < cfg.pattern.size → 1 ≤ cfg.count →
      generate cfg r fuel = GenResult.nonFeasible) ∧
    (cfg.count = 0 → generate cfg r fuel = GenResult.ok []) ∧
    (cfg.pattern.size = 0 →
      generate cfg r fuel = generate cfg r' fuel ∧
      generate cfg r fuel ≠ GenResult.panicked) := by
  refine ⟨fun hpos hcnt => ?_, fun h0 => ?_, fun hsz => ?_⟩
  · have hfeas : isFeasible cfg = some false := by
      rw [isFeasible_of_lt cfg hs, hlen, Nat.zero_pow hpos, Nat.zero_mod]
      simp [decide_eq_false_iff_not, Nat.not_le]
      omega
    exact generate_of_false hfeas r fuel
  · have hfeas : isFeasible cfg = some true := by
      rw [isFeasible_of_lt cfg hs, h0]
      simp
    rw [generate_of_true hfeas r fuel]
    cases fuel <;> simp [generateLoop, h0]
  · have hhash : ('#' : Char) ∉ cfg.pattern.pattern := size_zero_no_hash hsz
    have hone : ∀ r'' : RandSrc, generateOne cfg r'' ≠ none := by
      intro r''
      rw [generateOne_const hhash r'']
      simp
    have hmod : (1 : Nat) % USIZE = 1 := Nat.mod_eq_of_lt (by norm_num [USIZE])
    by_cases hc : cfg.count ≤ 1
    · have hfeas : isFeasible cfg = some true := by
        rw [isFeasible_of_lt cfg hs, hsz, pow_zero, hmod]
        simpa using hc
      rw [generate_of_true hfeas r fuel, generate_of_true hfeas r' fuel]
      exact ⟨generateLoop_const hhash fuel r r' [],
        generateLoop_no_panic hone fuel r []⟩
    · have hfeas : isFeasible cfg = some false := by
        rw [isFeasible_of_lt cfg hs, hsz, pow_zero, hmod]
        simpa [decide_eq_false_iff_not] using hc
      rw [generate_of_false hfeas r fuel, generate_of_false hfeas r' fuel]
      simp

theorem c8_witness :
    (0 < Pattern.size (Pattern.Length 1) → 1 ≤ 1 →
      generate ⟨Pattern.Length 1, 1, Charset.Custom []⟩ r0 1 =
        GenResult.nonFeasible) ∧
    ((1 : Nat) = 0 →
      generate ⟨Pattern.Length 1, 1, Charset.Custom []⟩ r0 1 = GenResult.ok []) ∧
    (Pattern.size (Pattern.Length 1) = 0 →
      generate ⟨Pattern.Length 1, 1, Charset.Custom []⟩ r0 1 =
        generate ⟨Pattern.Length 1, 1, Charset.Custom []⟩ r0 1 ∧
      generate ⟨Pattern.Length 1, 1, Charset.Custom []⟩ r0 1 ≠
        GenResult.panicked) :=
  c8_no_empty_pool_sampling ⟨Pattern.Length 1, 1, Charset.Custom []⟩ r0 r0 1
    rfl (by decide)

/-- Claim C9 (corrected): the claim quantifies over every pattern, but a
pattern with more than `u32::MAX` wildcards makes `generate` panic in the
feasibility computation even when `count = 0`. -/
theorem c9_counterexample :
    generate ⟨Pattern.Length (2 ^ 32), 0, Charset.Numeric⟩ r0 0 =
      GenResult.panicked :=
  generate_of_none (isFeasible_of_ge _ (by simp [Pattern.size])) r0 0

/-- Claim C9 (amended): for every charset and every pattern whose wildcard
count is at most `u32::MAX`, `generate` with `count = 0` succeeds with the
empty sequence — for every random source and even with zero fuel, so the
generation loop never runs and nothing is sampled. -/
theorem c9_zero_count_empty (cfg : Config) (r : RandSrc) (fuel : Nat)
    (hs : cfg.pattern.size < 2 ^ 32) (h0 : cfg.count = 0) :
    generate cfg r fuel = GenResult.ok [] := by
  have hfeas : isFeasible cfg = some true := by
    rw [isFeasible_of_lt cfg hs, h0]
    simp
  rw [generate_of_true hfeas r fuel]
  cases fuel <;> simp [generateLoop, h0]

theorem c9_witness :
    generate ⟨Pattern.Pattern ['x'], 0, Charset.Custom []⟩ r0 0 = GenResult.ok [] :=
  c9_zero_count_empty ⟨Pattern.Pattern ['x'], 0, Charset.Custom []⟩ r0 0
    (by decide) rfl

/-- Sanity check, the feasibility boundary of spec §8: 62 codes from one
alphanumeric wildcard are not rejected as infeasible, 63 are. -/
theorem feasibility_boundary :
    generate ⟨Pattern.Length 1, 62, Charset.Alphanumeric⟩ r0 0 ≠
      GenResult.nonFeasible ∧
    generate ⟨Pattern.Length 1, 63, Charset.Alphanumeric⟩ r0 0 =
      GenResult.nonFeasible := by
  constructor
  · decide
  · decide

/-- Sanity check: rendering a mixed literal/wildcard template on the
all-zero stream fills the wildcard with the first pool character. -/
theorem render_mixed_template :
    generateOne ⟨Pattern.Pattern ['A', '#'], 1, Charset.Numeric⟩ r0 =
      some (['A', '0'], 1) := by
  decide

/-- Sanity check, the zero-wildcard boundary of spec §8: a all-literal
template with count 1 yields exactly that literal string. -/
theorem zero_wildcard_boundary :
    generate ⟨Pattern.Pattern ['A'], 1, Charset.Numeric⟩ r0 1 =
      GenResult.ok [['A']] := by
  decide

end ReferralCodes
